import Mathlib

/-!
Shallow embedding of `torch/lib/THD/master_worker/common/CommandChannel.cpp`.

Byte streams are modelled as `List Nat` (each element a byte value).
The low-level helpers `send_bytes`/`recv_bytes` (external collaborators,
declared in `ChannelUtils.hpp`) transmit a `uint64` in a fixed
endian-normalized representation; we model that representation as
big-endian. Blocking reads over a finite stream are modelled with
`Option`: `none` means the operation blocks forever or the stream ended
(an exception in the C++ code).
-/

set_option autoImplicit false

namespace THD

/-- Big-endian byte encoding of `n` into exactly `k` bytes (most significant
first); high bits beyond `256^k` are dropped, matching the fixed-width
`uint64` transfer of `send_bytes<std::uint64_t>`. -/
def natToBytesBE : Nat → Nat → List Nat
  | 0, _ => []
  | k + 1, n => natToBytesBE k (n / 256) ++ [n % 256]

/-- Decoding of a big-endian byte sequence back to a natural number,
matching `recv_bytes<std::uint64_t>`. -/
def bytesToNatBE (bs : List Nat) : Nat :=
  bs.foldl (fun a b => a * 256 + b) 0

/-- The fixed endian-normalized 8-byte representation of a `uint64` length
field (`send_bytes<std::uint64_t>(socket, &len, 1, true)`). -/
def sendU64 (n : Nat) : List Nat :=
  natToBytesBE 8 n

/-- Frame writer: the body shared by `thd::(anonymous)::sendMessage`
(lines 18-28) and `WorkerCommandChannel::sendError` (lines 204-208):
an 8-byte normalized length followed by the raw payload bytes. -/
def writeFrame (payload : List Nat) : List Nat :=
  sendU64 payload.length ++ payload

/-- Frame reader: the body shared by `thd::(anonymous)::receiveMessage`
(lines 30-40) and the error-frame read inside
`MasterCommandChannel::recvError` (lines 163-168): read exactly 8 length
bytes, decode them, then read exactly that many payload bytes.  Returns
the payload and the unconsumed remainder of the stream, or `none` when
the stream is too short (the read blocks / errors). -/
def readFrame (s : List Nat) : Option (List Nat × List Nat) :=
  if 8 ≤ s.length then
    let len := bytesToNatBE (s.take 8)
    let rest := s.drop 8
    if len ≤ rest.length then
      some (rest.take len, rest.drop len)
    else
      none
  else
    none

/-- `thd::(anonymous)::sendMessage` (lines 18-28): the byte sequence
written to the socket for one command message. -/
def thdSendMessage (msg : List Nat) : List Nat :=
  writeFrame msg

/-- `thd::(anonymous)::receiveMessage` (lines 30-40): reads one frame
from the stream, returning the message payload and the remaining stream. -/
def thdReceiveMessage (s : List Nat) : Option (List Nat × List Nat) :=
  readFrame s

/-- `WorkerCommandChannel::sendError` (lines 204-208): the byte sequence
written to the socket for one error report. -/
def WorkerCommandChannel.sendError (error : List Nat) : List Nat :=
  writeFrame error

/-- One `pollfd` entry of the cached `_poll_events` array. -/
structure PollFd where
  fd : Int
  events : Nat
  revents : Nat
deriving DecidableEq, Repr, Inhabited

/-- The `POLLIN` event bit. -/
def POLLIN : Nat := 1

/-- State of a `MasterCommandChannel` object: the rank-indexed socket
table `_sockets` (`-1` marks a closed/absent descriptor), the latched
error `_error` (null pointer modelled as `none`), the `_exiting` and
`_started` flags, and the lazily built `_poll_events` array. -/
structure MasterState where
  sockets : List Int
  error : Option String
  exiting : Bool
  started : Bool
  pollEvents : Option (List PollFd)
deriving DecidableEq, Repr

/-- Outcome of `MasterCommandChannel::sendMessage`: the latched-error
throw is a `std::runtime_error`, the rank check a `std::domain_error`;
these are distinct exception kinds in the C++ code. -/
inductive SendOutcome where
  | channelError (msg : String)
  | invalidRank (msg : String)
  | ok
deriving DecidableEq, Repr

/-- `MasterCommandChannel::sendMessage` (lines 110-121).  Returns the
outcome together with the list of network writes `(socket, bytes)`
performed; both failure paths throw before any write. -/
def MasterCommandChannel.sendMessage (st : MasterState) (msg : List Nat)
    (rank : Int) : SendOutcome × List (Int × List Nat) :=
  match st.error with
  | some e => (SendOutcome.channelError e, [])
  | none =>
    if rank ≤ 0 ∨ (st.sockets.length : Int) ≤ rank then
      (SendOutcome.invalidRank "sendMessage received invalid rank as parameter", [])
    else
      (SendOutcome.ok, [(st.sockets.getD rank.toNat (-1), thdSendMessage msg)])

/-- The error message format built by `MasterCommandChannel::errorHandler`
(lines 104-106). -/
def fmtError (r : Nat) (t : String) : String :=
  "error (rank " ++ toString r ++ "): " ++ t

/-- One iteration of the `MasterCommandChannel::errorHandler` loop
(lines 98-107) after `recvError` returned `report`: if `_exiting` is
observed the thread returns, leaving the state unchanged; otherwise the
latched `_error` is replaced by the formatted report. -/
def MasterCommandChannel.errorHandlerIteration (st : MasterState)
    (report : Nat × String) : MasterState :=
  if st.exiting then st
  else { st with error := some (fmtError report.1 report.2) }

/-- The `errorHandler` loop run over a sequence of iterations.  Each
input records the `_exiting` value observed at that iteration (the flag
is written concurrently by the destructor) together with the report
returned by `recvError`.  The result is the trace of post-iteration
states; the trace ends when `_exiting` is observed true (the thread
returns). -/
def MasterCommandChannel.errorHandlerRun (st : MasterState) :
    List (Bool × Nat × String) → List MasterState
  | [] => []
  | (ex, r, t) :: rest =>
    if ex then []
    else
      let st₂ := MasterCommandChannel.errorHandlerIteration { st with exiting := ex } (r, t)
      st₂ :: MasterCommandChannel.errorHandlerRun st₂ rest

/-- The trace of `_error` latch states across an `errorHandler` run: the
state when the loop starts followed by each post-iteration state. -/
def MasterCommandChannel.errorHandlerTrace (st : MasterState)
    (steps : List (Bool × Nat × String)) : List MasterState :=
  st :: MasterCommandChannel.errorHandlerRun st steps

/-- The `_poll_events` array built on first use by `recvError`
(lines 124-133): one descriptor per socket slot, watching `POLLIN`. -/
def buildPollEvents (sockets : List Int) : List PollFd :=
  sockets.map (fun s => { fd := s, events := POLLIN, revents := 0 })

/-- The `revents` reset at the top of every `recvError` call
(lines 135-137). -/
def clearRevents (pes : List PollFd) : List PollFd :=
  pes.map (fun pe => { pe with revents := 0 })

/-- The kernel's `poll` writing each descriptor's `revents`; a missing
result means the descriptor was not ready (`revents = 0`). -/
def applyResults : List PollFd → List Nat → List PollFd
  | [], _ => []
  | pe :: pes, [] => { pe with revents := 0 } :: applyResults pes []
  | pe :: pes, r :: rs => { pe with revents := r } :: applyResults pes rs

/-- The scan over ranks in `recvError` (lines 152-172).  `streams` holds
the pending inbound bytes of each descriptor (consumed in lockstep),
`ewhat` the message of whatever exception a failed `recv_bytes` raises,
and `i` the absolute rank of the first descriptor.  A descriptor with
`revents = 0` is skipped; one whose `revents` differs from plain
`POLLIN` (`revents ^ POLLIN` nonzero) is marked ignored (`fd = -1`) and
reported closed; otherwise one error frame is read from its stream.
Returns `none` when no descriptor had events. -/
def scanPoll (ewhat : String) :
    List PollFd → List (List Nat) → Nat → Option ((Nat × String) × List PollFd)
  | [], _, _ => none
  | pe :: pes, streams, i =>
    if pe.revents = 0 then
      (scanPoll ewhat pes streams.tail (i + 1)).map (fun x => (x.1, pe :: x.2))
    else if pe.revents ^^^ POLLIN ≠ 0 then
      some ((i, "connection with worker has been closed"), { pe with fd := -1 } :: pes)
    else
      match readFrame (streams.headD []) with
      | some (payload, _) => some ((i, payload.map Char.ofNat |> List.asString), pe :: pes)
      | none => some ((i, "recv: " ++ ewhat), pe :: pes)

/-- `MasterCommandChannel::recvError` (lines 123-176), one wake of the
poll loop.  `pollExc` is the exception message when `poll` itself fails
(the `SYSCHECK` catch, line 148-150); `results` are the `revents` the
returning `poll` wrote; the `_exiting` check (line 144) happens after
`poll` returns and before the scan.  Returns the `(rank, text)` report
and the updated state (only `_poll_events` is ever modified). -/
def MasterCommandChannel.recvError (st : MasterState) (pollExc : Option String)
    (results : List Nat) (streams : List (List Nat)) (ewhat : String) :
    (Nat × String) × MasterState :=
  let pes := clearRevents (st.pollEvents.getD (buildPollEvents st.sockets))
  match pollExc with
  | some e => ((0, "poll: " ++ e), { st with pollEvents := some pes })
  | none =>
    let pes' := applyResults pes results
    if st.exiting then ((0, ""), { st with pollEvents := some pes' })
    else
      match scanPoll ewhat pes' streams 0 with
      | some (res, pes'') => (res, { st with pollEvents := some pes'' })
      | none => ((0, "failed to receive error from worker"), { st with pollEvents := some pes' })

/-- One accepted connection during `MasterCommandChannel::init`: the
socket returned by `accept` and the rank value read from the raw
handshake (`recv_bytes<rank_type>`). -/
structure Arrival where
  socket : Int
  rank : Nat
deriving DecidableEq, Repr

/-- Observable events of the master's `init`. -/
inductive MEvent where
  | accept (socket : Int) (rank : Nat)
  | confirmByte (slot : Nat) (fd : Int)
  | closeListen (fd : Int)
deriving DecidableEq, Repr

def MEvent.isAccept : MEvent → Bool
  | .accept _ _ => true
  | _ => false

def MEvent.isConfirm : MEvent → Bool
  | .confirmByte _ _ => true
  | _ => false

/-- The accept loop of `MasterCommandChannel::init` (lines 74-78):
each arriving connection is stored at the slot of the rank it announced
via the bounds-checked `_sockets.at(rank)`; an announced rank outside
the table aborts init with `std::out_of_range` (`none`). -/
def slotArrivals : List Int → List Arrival → Option (List Int)
  | tbl, [] => some tbl
  | tbl, a :: rest =>
    if a.rank < tbl.length then slotArrivals (tbl.set a.rank a.socket) rest
    else none

/-- `MasterCommandChannel::init` (lines 69-95): slot `_sockets[0]` holds
the listening socket; exactly `worldSize - 1` connections are accepted
and slotted by announced rank (fewer available arrivals would block in
`accept`, modelled as `none`); then one confirmation byte is written to
each slot `1..worldSize-1`; finally the listening slot is closed.
Returns the final socket table and the ordered event trace. -/
def MasterCommandChannel.init (listenFd : Int) (worldSize : Nat)
    (arrivals : List Arrival) : Option (List Int × List MEvent) :=
  if arrivals.length = worldSize - 1 then
    let tbl0 := (List.replicate worldSize (-1 : Int)).set 0 listenFd
    match slotArrivals tbl0 arrivals with
    | none => none
    | some tbl =>
      let acceptEvents := arrivals.map (fun a => MEvent.accept a.socket a.rank)
      let confirmEvents :=
        (List.range' 1 (worldSize - 1)).map (fun i => MEvent.confirmByte i (tbl.getD i (-1)))
      some (tbl.set 0 (-1),
        acceptEvents ++ confirmEvents ++ [MEvent.closeListen (tbl.getD 0 (-1))])
  else
    none

/-- `WorkerCommandChannel::init` (lines 191-198): writes the worker's
rank as the raw handshake value, then blocks reading one confirmation
byte from `confirmStream`.  The first component is the handshake value
written; the second is `some true` once the confirmation byte is
available and `none` while the worker is still blocked. -/
def WorkerCommandChannel.init (rank : Nat) (confirmStream : List Nat) :
    Nat × Option Bool :=
  (rank, match confirmStream with
    | [] => none
    | _ :: _ => some true)

/-- A sample fully initialized master state (WorldSize 3), used as a
concrete input in closed instances. -/
def sampleMaster : MasterState :=
  { sockets := [-1, 5, 6], error := none, exiting := false,
    started := true, pollEvents := none }

/-- A sample fully initialized master state (WorldSize 4), used as a
concrete input in closed instances. -/
def sampleMaster4 : MasterState :=
  { sockets := [-1, 5, 6, 7], error := none, exiting := false,
    started := true, pollEvents := none }

/-- The sample master state with the exit signal already set by the
destructor. -/
def sampleMasterExiting : MasterState :=
  { sockets := [-1, 5, 6], error := none, exiting := true,
    started := true, pollEvents := none }

/-- Observable events of channel teardown. -/
inductive TEvent where
  | setExitFlag
  | joinThread
  | closeFd (fd : Int)
deriving DecidableEq, Repr

/-- `MasterCommandChannel::~MasterCommandChannel` (lines 57-67): set
`_exiting`, join the error thread when `_started`, then close every
socket slot that is not `-1`. -/
def MasterCommandChannel.destructor (st : MasterState) : List TEvent :=
  TEvent.setExitFlag ::
    ((if st.started then [TEvent.joinThread] else []) ++
      (st.sockets.filter (fun s => s ≠ -1)).map TEvent.closeFd)

/-- The `_socket` value set by the `WorkerCommandChannel` constructor
(line 180), before any `init()` call. -/
def WorkerCommandChannel.initialSocket : Int := -1

/-- `WorkerCommandChannel::~WorkerCommandChannel` (lines 186-189):
close `_socket` only when it is not `-1`. -/
def WorkerCommandChannel.destructor (socket : Int) : List TEvent :=
  if socket ≠ -1 then [TEvent.closeFd socket] else []

theorem natToBytesBE_length (k n : Nat) : (natToBytesBE k n).length = k := by
  induction k generalizing n with
  | zero => rfl
  | succ k ih =>
    simp [natToBytesBE, ih]

theorem bytesToNatBE_natToBytesBE (k n : Nat) (h : n < 256 ^ k) :
    bytesToNatBE (natToBytesBE k n) = n := by
  induction k generalizing n with
  | zero =>
    simp [natToBytesBE, bytesToNatBE]
    omega
  | succ k ih =>
    have hdiv : n / 256 < 256 ^ k := by
      rw [Nat.div_lt_iff_lt_mul (by norm_num)]
      calc n < 256 ^ (k + 1) := h
        _ = 256 ^ k * 256 := by ring
    have hrec := ih (n / 256) hdiv
    simp only [natToBytesBE, bytesToNatBE, List.foldl_append, List.foldl_cons,
      List.foldl_nil] at *
    rw [hrec]
    omega

theorem readFrame_writeFrame (p rest : List Nat) (h : p.length < 2 ^ 64) :
    readFrame (writeFrame p ++ rest) = some (p, rest) := by
  have h8 : (sendU64 p.length).length = 8 := natToBytesBE_length 8 p.length
  have hlen : bytesToNatBE (sendU64 p.length) = p.length := by
    apply bytesToNatBE_natToBytesBE
    calc p.length < 2 ^ 64 := h
      _ = 256 ^ 8 := by norm_num
  unfold writeFrame at *
  rw [List.append_assoc]
  unfold readFrame
  have htake : (sendU64 p.length ++ (p ++ rest)).take 8 = sendU64 p.length := by
    rw [← h8, List.take_left]
  have hdrop : (sendU64 p.length ++ (p ++ rest)).drop 8 = p ++ rest := by
    rw [← h8, List.drop_left]
  rw [if_pos (by simp [List.length_append, h8])]
  simp only [htake, hdrop, hlen]
  rw [if_pos (by simp [List.length_append])]
  simp [List.take_left, List.drop_left]

theorem getD_set_self {α : Type} (l : List α) (i : Nat) (a d : α)
    (h : i < l.length) : (l.set i a).getD i d = a := by
  rw [List.getD_eq_getElem?_getD, List.getElem?_set_self (by omega)]
  simp

theorem getD_set_ne {α : Type} (l : List α) (i j : Nat) (a d : α)
    (h : i ≠ j) : (l.set i a).getD j d = l.getD j d := by
  rw [List.getD_eq_getElem?_getD, List.getElem?_set_ne h, ← List.getD_eq_getElem?_getD]

theorem slotArrivals_length (arr : List Arrival) (tbl tbl' : List Int)
    (h : slotArrivals tbl arr = some tbl') : tbl'.length = tbl.length := by
  induction arr generalizing tbl with
  | nil =>
    simp [slotArrivals] at h
    simp [h]
  | cons a rest ih =>
    unfold slotArrivals at h
    by_cases hr : a.rank < tbl.length
    · rw [if_pos hr] at h
      have := ih (tbl.set a.rank a.socket) h
      simpa using this
    · rw [if_neg hr] at h
      exact absurd h (by simp)

theorem slotArrivals_isSome (arr : List Arrival) (tbl : List Int)
    (h : ∀ a ∈ arr, a.rank < tbl.length) :
    ∃ tbl', slotArrivals tbl arr = some tbl' := by
  induction arr generalizing tbl with
  | nil => exact ⟨tbl, rfl⟩
  | cons a rest ih =>
    have ha : a.rank < tbl.length := h a (by simp)
    have hrest : ∀ b ∈ rest, b.rank < (tbl.set a.rank a.socket).length := by
      intro b hb
      simpa using h b (by simp [hb])
    obtain ⟨tbl', htbl'⟩ := ih (tbl.set a.rank a.socket) hrest
    exact ⟨tbl', by simp [slotArrivals, ha, htbl']⟩

theorem slotArrivals_getD_notMem (arr : List Arrival) (tbl tbl' : List Int)
    (r : Nat) (d : Int) (h : slotArrivals tbl arr = some tbl')
    (hr : ∀ a ∈ arr, a.rank ≠ r) : tbl'.getD r d = tbl.getD r d := by
  induction arr generalizing tbl with
  | nil =>
    simp [slotArrivals] at h
    simp [h]
  | cons a rest ih =>
    unfold slotArrivals at h
    by_cases hb : a.rank < tbl.length
    · rw [if_pos hb] at h
      have hrec := ih (tbl.set a.rank a.socket) h (fun b hbmem => hr b (by simp [hbmem]))
      rw [hrec, getD_set_ne _ _ _ _ _ (hr a (by simp))]
    · rw [if_neg hb] at h
      exact absurd h (by simp)

theorem slotArrivals_getD_mem (arr : List Arrival) (tbl tbl' : List Int)
    (a : Arrival) (d : Int) (h : slotArrivals tbl arr = some tbl')
    (hnd : (arr.map Arrival.rank).Nodup) (ha : a ∈ arr) :
    tbl'.getD a.rank d = a.socket := by
  induction arr generalizing tbl with
  | nil => exact absurd ha (by simp)
  | cons b rest ih =>
    unfold slotArrivals at h
    by_cases hb : b.rank < tbl.length
    · rw [if_pos hb] at h
      simp only [List.map_cons, List.nodup_cons] at hnd
      rcases List.mem_cons.mp ha with hab | harest
      · subst hab
        have hnot : ∀ c ∈ rest, c.rank ≠ a.rank := by
          intro c hc hcr
          exact hnd.1 (hcr ▸ List.mem_map_of_mem Arrival.rank hc)
        rw [slotArrivals_getD_notMem rest _ _ _ _ h hnot,
          getD_set_self _ _ _ _ hb]
      · exact ih (tbl.set b.rank b.socket) h hnd.2 harest
    · rw [if_neg hb] at h
      exact absurd h (by simp)

theorem slotArrivals_oob (arr : List Arrival) (tbl : List Int)
    (h : ∃ a ∈ arr, tbl.length ≤ a.rank) : slotArrivals tbl arr = none := by
  induction arr generalizing tbl with
  | nil => simp at h
  | cons b rest ih =>
    obtain ⟨a, ha, hlen⟩ := h
    unfold slotArrivals
    by_cases hb : b.rank < tbl.length
    · rw [if_pos hb]
      rcases List.mem_cons.mp ha with hab | harest
      · subst hab; omega
      · exact ih _ ⟨a, harest, by simpa using hlen⟩
    · rw [if_neg hb]

theorem errorHandlerRun_error_isSome (steps : List (Bool × Nat × String))
    (st : MasterState) (x : MasterState)
    (hx : x ∈ MasterCommandChannel.errorHandlerRun st steps) : x.error.isSome := by
  induction steps generalizing st with
  | nil => simp [MasterCommandChannel.errorHandlerRun] at hx
  | cons step rest ih =>
    obtain ⟨ex, r, t⟩ := step
    unfold MasterCommandChannel.errorHandlerRun at hx
    by_cases hex : ex
    · simp [hex] at hx
    · rw [if_neg hex] at hx
      rcases List.mem_cons.mp hx with hx1 | hx2
      · subst hx1
        simp [MasterCommandChannel.errorHandlerIteration, hex, fmtError]
      · exact ih _ hx2

theorem applyResults_length (pes : List PollFd) (rs : List Nat) :
    (applyResults pes rs).length = pes.length := by
  induction pes generalizing rs with
  | nil => rfl
  | cons pe pes ih =>
    cases rs with
    | nil => simp [applyResults, ih]
    | cons r rs => simp [applyResults, ih]

theorem applyResults_getD (pes : List PollFd) (rs : List Nat) (j : Nat)
    (hj : j < pes.length) :
    (applyResults pes rs).getD j default =
      { pes.getD j default with revents := rs.getD j 0 } := by
  induction pes generalizing rs j with
  | nil => simp at hj
  | cons pe pes ih =>
    cases rs with
    | nil =>
      cases j with
      | zero => simp [applyResults]
      | succ j =>
        simp only [applyResults, List.getD_cons_succ]
        exact ih [] j (by simpa using hj)
    | cons r rs =>
      cases j with
      | zero => simp [applyResults]
      | succ j =>
        simp only [applyResults, List.getD_cons_succ]
        exact ih rs j (by simpa using hj)

theorem clearRevents_length (pes : List PollFd) :
    (clearRevents pes).length = pes.length := by
  simp [clearRevents]

theorem clearRevents_getD (pes : List PollFd) (j : Nat) (hj : j < pes.length) :
    (clearRevents pes).getD j default = { pes.getD j default with revents := 0 } := by
  induction pes generalizing j with
  | nil => simp at hj
  | cons pe pes ih =>
    cases j with
    | zero => simp [clearRevents]
    | succ j =>
      simp only [clearRevents, List.map_cons, List.getD_cons_succ]
      exact ih j (by simpa using hj)

theorem scanPoll_none (ewhat : String) (pes : List PollFd)
    (streams : List (List Nat)) (i : Nat)
    (h : ∀ j, j < pes.length → (pes.getD j default).revents = 0) :
    scanPoll ewhat pes streams i = none := by
  induction pes generalizing streams i with
  | nil => rfl
  | cons pe pes ih =>
    have h0 : pe.revents = 0 := by simpa using h 0 (by simp)
    have hrest : ∀ j, j < pes.length → (pes.getD j default).revents = 0 := by
      intro j hj
      simpa using h (j + 1) (by simpa using hj)
    simp [scanPoll, h0, ih streams.tail (i + 1) hrest]

theorem scanPoll_length (ewhat : String) (pes : List PollFd)
    (streams : List (List Nat)) (i : Nat) (res : Nat × String) (pes' : List PollFd)
    (h : scanPoll ewhat pes streams i = some (res, pes')) :
    pes'.length = pes.length := by
  induction pes generalizing streams i res pes' with
  | nil => simp [scanPoll] at h
  | cons pe pes ih =>
    unfold scanPoll at h
    by_cases h0 : pe.revents = 0
    · rw [if_pos h0, Option.map_eq_some'] at h
      obtain ⟨x, hx, hxeq⟩ := h
      obtain ⟨hx1, hx2⟩ := Prod.mk.injEq .. ▸ hxeq
      subst hx2
      simp [ih streams.tail (i + 1) res x.2 (by rw [hx, ← hx1])]
    · rw [if_neg h0] at h
      by_cases hxor : pe.revents ^^^ POLLIN ≠ 0
      · rw [if_pos hxor] at h
        obtain ⟨h1, h2⟩ := Prod.mk.injEq .. ▸ (Option.some.injEq .. ▸ h)
        simp [← h2]
      · rw [if_neg hxor] at h
        cases hread : readFrame (streams.headD []) with
        | some x =>
          rw [hread] at h
          obtain ⟨h1, h2⟩ := Prod.mk.injEq .. ▸ (Option.some.injEq .. ▸ h)
          simp [← h2]
        | none =>
          rw [hread] at h
          obtain ⟨h1, h2⟩ := Prod.mk.injEq .. ▸ (Option.some.injEq .. ▸ h)
          simp [← h2]

theorem scanPoll_hangup (ewhat : String) (pes : List PollFd)
    (streams : List (List Nat)) (i r : Nat)
    (hzero : ∀ j, j < r → (pes.getD j default).revents = 0)
    (hr : r < pes.length)
    (hne : (pes.getD r default).revents ≠ 0)
    (hxor : (pes.getD r default).revents ^^^ POLLIN ≠ 0) :
    scanPoll ewhat pes streams i =
      some ((i + r, "connection with worker has been closed"),
        pes.set r { pes.getD r default with fd := -1 }) := by
  induction pes generalizing streams i r with
  | nil => simp at hr
  | cons pe pes ih =>
    cases r with
    | zero =>
      simp only [List.getD_cons_zero] at hne hxor
      simp [scanPoll, hne, hxor]
    | succ r =>
      have h0 : pe.revents = 0 := by simpa using hzero 0 (by omega)
      have hzero' : ∀ j, j < r → (pes.getD j default).revents = 0 := by
        intro j hj
        simpa using hzero (j + 1) (by omega)
      have hrec := ih streams.tail (i + 1) r hzero' (by simpa using hr)
        (by simpa using hne) (by simpa using hxor)
      simp only [scanPoll, if_pos h0, hrec, Option.map_some', List.set_cons_succ,
        List.getD_cons_succ]
      have : i + 1 + r = i + (r + 1) := by omega
      rw [this]

theorem scanPoll_rank_ready (ewhat : String) (pes : List PollFd)
    (streams : List (List Nat)) (i : Nat) (k : Nat) (m : String) (pes' : List PollFd)
    (h : scanPoll ewhat pes streams i = some ((k, m), pes')) :
    ∃ j, j < pes.length ∧ k = i + j ∧ (pes.getD j default).revents ≠ 0 := by
  induction pes generalizing streams i k m pes' with
  | nil => simp [scanPoll] at h
  | cons pe pes ih =>
    unfold scanPoll at h
    by_cases h0 : pe.revents = 0
    · rw [if_pos h0, Option.map_eq_some'] at h
      obtain ⟨x, hx, hxeq⟩ := h
      have hk : x.1.1 = k := by
        have := congrArg (fun y => y.1.1) hxeq
        simpa using this
      obtain ⟨j, hj, hkj, hrev⟩ := ih streams.tail (i + 1) x.1.1 x.1.2 x.2
        (by rw [hx])
      exact ⟨j + 1, by simpa using hj, by omega, by simpa using hrev⟩
    · rw [if_neg h0] at h
      by_cases hxor : pe.revents ^^^ POLLIN ≠ 0
      · rw [if_pos hxor] at h
        have hk : i = k := by
          have := congrArg (fun y => y.map (fun z => z.1.1) |>.getD 0) h
          simpa using this
        exact ⟨0, by simp, by omega, by simpa using h0⟩
      · rw [if_neg hxor] at h
        cases hread : readFrame (streams.headD []) with
        | some x =>
          rw [hread] at h
          have hk : i = k := by
            have := congrArg (fun y => y.map (fun z => z.1.1) |>.getD 0) h
            simpa using this
          exact ⟨0, by simp, by omega, by simpa using h0⟩
        | none =>
          rw [hread] at h
          have hk : i = k := by
            have := congrArg (fun y => y.map (fun z => z.1.1) |>.getD 0) h
            simpa using this
          exact ⟨0, by simp, by omega, by simpa using h0⟩

theorem scanPoll_fd_preserve (ewhat : String) (pes : List PollFd)
    (streams : List (List Nat)) (i : Nat) (res : Nat × String) (pes' : List PollFd)
    (h : scanPoll ewhat pes streams i = some (res, pes')) (j : Nat) :
    (pes'.getD j default).fd = (pes.getD j default).fd ∨
      (pes'.getD j default).fd = -1 := by
  induction pes generalizing streams i res pes' j with
  | nil => simp [scanPoll] at h
  | cons pe pes ih =>
    unfold scanPoll at h
    by_cases h0 : pe.revents = 0
    · rw [if_pos h0, Option.map_eq_some'] at h
      obtain ⟨x, hx, hxeq⟩ := h
      have hpes' : pes' = pe :: x.2 := by
        have := congrArg (fun y => y.2) hxeq
        simpa using this.symm
      subst hpes'
      cases j with
      | zero => simp
      | succ j =>
        simpa using ih streams.tail (i + 1) x.1 x.2 (by rw [hx]) j
    · rw [if_neg h0] at h
      by_cases hxor : pe.revents ^^^ POLLIN ≠ 0
      · rw [if_pos hxor] at h
        have hpes' : pes' = { pe with fd := -1 } :: pes := by
          have := congrArg (fun y => y.map (fun z => z.2)) h
          simpa using this.symm
        subst hpes'
        cases j with
        | zero => simp
        | succ j => simp
      · rw [if_neg hxor] at h
        cases hread : readFrame (streams.headD []) with
        | some x =>
          rw [hread] at h
          have hpes' : pes' = pe :: pes := by
            have := congrArg (fun y => y.map (fun z => z.2)) h
            simpa using this.symm
          subst hpes'
          simp
        | none =>
          rw [hread] at h
          have hpes' : pes' = pe :: pes := by
            have := congrArg (fun y => y.map (fun z => z.2)) h
            simpa using this.symm
          subst hpes'
          simp

/-- Claim C4: for every payload byte sequence (empty, length 1, or larger
than 64KB alike), a frame written by the master's frame writer and read by
the worker's frame reader over the connecting byte stream yields a
byte-identical payload of identical length: `writeFrame` followed by
`readFrame` is the identity on payloads. -/
theorem claim_C4 (p rest : List Nat) (h : p.length < 2 ^ 64) :
    thdReceiveMessage (thdSendMessage p ++ rest) = some (p, rest) :=
  readFrame_writeFrame p rest h

theorem claim_C4_witness :
    ([3, 7, 9] : List Nat).length < 2 ^ 64 ∧
      thdReceiveMessage (thdSendMessage [3, 7, 9] ++ [250, 251]) =
        some ([3, 7, 9], [250, 251]) :=
  ⟨by norm_num, claim_C4 [3, 7, 9] [250, 251] (by norm_num)⟩

/-- Claim C9: every frame — command frames written by the master
(`thd::sendMessage`) and error frames written by the worker
(`WorkerCommandChannel::sendError`) alike — consists of an 8-byte
endian-normalized length field followed by the raw payload bytes in that
order, and the receiver reads exactly 8 length bytes, decodes them to the
payload length, then reads exactly that many payload bytes transmitted
as-is, with no maximum frame size enforced (any `uint64`-expressible
length round-trips). -/
theorem claim_C9 (msg err rest rest₂ : List Nat)
    (hm : msg.length < 2 ^ 64) (he : err.length < 2 ^ 64) :
    thdSendMessage msg = natToBytesBE 8 msg.length ++ msg ∧
    (natToBytesBE 8 msg.length).length = 8 ∧
    WorkerCommandChannel.sendError err = natToBytesBE 8 err.length ++ err ∧
    bytesToNatBE ((thdSendMessage msg ++ rest).take 8) = msg.length ∧
    readFrame (thdSendMessage msg ++ rest) = some (msg, rest) ∧
    readFrame (WorkerCommandChannel.sendError err ++ rest₂) = some (err, rest₂) := by
  refine ⟨rfl, natToBytesBE_length 8 msg.length, rfl, ?_, ?_, ?_⟩
  · have h8 : (sendU64 msg.length).length = 8 := natToBytesBE_length 8 msg.length
    have : (thdSendMessage msg ++ rest).take 8 = sendU64 msg.length := by
      rw [thdSendMessage, writeFrame, List.append_assoc, ← h8, List.take_left]
    rw [this]
    exact bytesToNatBE_natToBytesBE 8 msg.length (by calc
      msg.length < 2 ^ 64 := hm
      _ = 256 ^ 8 := by norm_num)
  · exact readFrame_writeFrame msg rest hm
  · exact readFrame_writeFrame err rest₂ he

theorem claim_C9_witness :
    ([5] : List Nat).length < 2 ^ 64 ∧ ([17, 200] : List Nat).length < 2 ^ 64 ∧
      (thdSendMessage [5] = natToBytesBE 8 ([5] : List Nat).length ++ [5] ∧
       (natToBytesBE 8 ([5] : List Nat).length).length = 8 ∧
       WorkerCommandChannel.sendError [17, 200] =
         natToBytesBE 8 ([17, 200] : List Nat).length ++ [17, 200] ∧
       bytesToNatBE ((thdSendMessage [5] ++ [9]).take 8) = ([5] : List Nat).length ∧
       readFrame (thdSendMessage [5] ++ [9]) = some ([5], [9]) ∧
       readFrame (WorkerCommandChannel.sendError [17, 200] ++ []) = some ([17, 200], [])) :=
  ⟨by norm_num, by norm_num,
    claim_C9 [5] [17, 200] [9] [] (by norm_num) (by norm_num)⟩

/-- Claim C1: after the background error listener has latched a worker's
report `(r, t)` (an `errorHandler` iteration observed while the channel is
not exiting), every subsequent `MasterCommandChannel::sendMessage` call —
to any destination rank, including ranks uninvolved in the failure —
fails immediately with the latched message formatted as
"error (rank R): text", performing no network write. -/
theorem claim_C1 (st : MasterState) (r : Nat) (t : String) (msg : List Nat)
    (rank : Int) (hex : st.exiting = false) :
    MasterCommandChannel.sendMessage
        (MasterCommandChannel.errorHandlerIteration st (r, t)) msg rank =
      (SendOutcome.channelError ("error (rank " ++ toString r ++ "): " ++ t), []) := by
  simp [MasterCommandChannel.errorHandlerIteration, hex, fmtError,
    MasterCommandChannel.sendMessage]

theorem claim_C1_witness :
    sampleMaster4.exiting = false ∧
      MasterCommandChannel.sendMessage
          (MasterCommandChannel.errorHandlerIteration sampleMaster4
            (3, "worker 3 died")) [1, 2] 1 =
        (SendOutcome.channelError ("error (rank " ++ toString (3 : Nat) ++ "): " ++
          "worker 3 died"), []) :=
  ⟨rfl, claim_C1 sampleMaster4 3 "worker 3 died" [1, 2] 1 rfl⟩

/-- Claim C6: for every destination rank outside the open range
`(0, WorldSize)` — rank 0, negative ranks, and ranks at or above
`WorldSize` — `MasterCommandChannel::sendMessage` (reached with no channel
failure latched, the latched-error check coming first per the spec's
ordered contract) fails with a `std::domain_error`, an error kind distinct
from transport and channel failures, and performs no network I/O before
failing. -/
theorem claim_C6 (st : MasterState) (msg : List Nat) (rank : Int)
    (herr : st.error = none)
    (hrank : rank ≤ 0 ∨ (st.sockets.length : Int) ≤ rank) :
    MasterCommandChannel.sendMessage st msg rank =
      (SendOutcome.invalidRank "sendMessage received invalid rank as parameter", []) ∧
    (∀ e, SendOutcome.invalidRank "sendMessage received invalid rank as parameter" ≠
      SendOutcome.channelError e) := by
  constructor
  · simp only [MasterCommandChannel.sendMessage, herr]
    rw [if_pos hrank]
  · intro e h
    cases h

theorem claim_C6_witness :
    sampleMaster4.error = none ∧
      ((0 : Int) ≤ 0 ∨ (sampleMaster4.sockets.length : Int) ≤ 0) ∧
      (MasterCommandChannel.sendMessage sampleMaster4 [1] 0 =
        (SendOutcome.invalidRank "sendMessage received invalid rank as parameter", []) ∧
      (∀ e, SendOutcome.invalidRank "sendMessage received invalid rank as parameter" ≠
        SendOutcome.channelError e)) :=
  ⟨rfl, Or.inl (by norm_num),
    claim_C6 sampleMaster4 [1] 0 rfl (Or.inl (by norm_num))⟩

/-- Claim C3: along every execution trace of the background listener, the
`_error` latch transitions from unset to set at most one time, never
returns to the unset state once set, and from any latched state every
`sendMessage` attempt fails immediately (no network write). -/
theorem claim_C3 (st : MasterState) (steps : List (Bool × Nat × String)) :
    (∀ i j (hi : i < (MasterCommandChannel.errorHandlerTrace st steps).length)
        (hj : j < (MasterCommandChannel.errorHandlerTrace st steps).length),
      i ≤ j →
      ((MasterCommandChannel.errorHandlerTrace st steps).get ⟨i, hi⟩).error.isSome →
      ((MasterCommandChannel.errorHandlerTrace st steps).get ⟨j, hj⟩).error.isSome) ∧
    (∀ i j (hi : i + 1 < (MasterCommandChannel.errorHandlerTrace st steps).length)
        (hj : j + 1 < (MasterCommandChannel.errorHandlerTrace st steps).length),
      i < j →
      (((MasterCommandChannel.errorHandlerTrace st steps).get
          ⟨i, Nat.lt_of_succ_lt hi⟩).error = none ∧
        ((MasterCommandChannel.errorHandlerTrace st steps).get ⟨i + 1, hi⟩).error.isSome) →
      ¬(((MasterCommandChannel.errorHandlerTrace st steps).get
          ⟨j, Nat.lt_of_succ_lt hj⟩).error = none ∧
        ((MasterCommandChannel.errorHandlerTrace st steps).get ⟨j + 1, hj⟩).error.isSome)) ∧
    (∀ i (hi : i < (MasterCommandChannel.errorHandlerTrace st steps).length),
      ((MasterCommandChannel.errorHandlerTrace st steps).get ⟨i, hi⟩).error.isSome →
      ∀ msg rank, ∃ e,
        MasterCommandChannel.sendMessage
          ((MasterCommandChannel.errorHandlerTrace st steps).get ⟨i, hi⟩) msg rank =
          (SendOutcome.channelError e, [])) := by
  have hsucc : ∀ k (hk : k + 1 < (MasterCommandChannel.errorHandlerTrace st steps).length),
      ((MasterCommandChannel.errorHandlerTrace st steps).get ⟨k + 1, hk⟩).error.isSome := by
    intro k hk
    have hk' : k < (MasterCommandChannel.errorHandlerRun st steps).length := by
      simpa [MasterCommandChannel.errorHandlerTrace] using hk
    have hget : (MasterCommandChannel.errorHandlerTrace st steps).get ⟨k + 1, hk⟩ =
        (MasterCommandChannel.errorHandlerRun st steps).get ⟨k, hk'⟩ := by
      simp [MasterCommandChannel.errorHandlerTrace]
    rw [hget]
    exact errorHandlerRun_error_isSome steps st _ (List.get_mem _ _ _)
  refine ⟨?_, ?_, ?_⟩
  · intro i j hi hj hij hsome
    cases j with
    | zero =>
      have : i = 0 := Nat.le_zero.mp hij
      subst this
      exact hsome
    | succ j => exact hsucc j hj
  · intro i j hi hj hij htrans hcontra
    obtain ⟨hjnone, _⟩ := hcontra
    cases j with
    | zero => omega
    | succ j =>
      have hs := hsucc j (Nat.lt_of_succ_lt hj)
      rw [hjnone] at hs
      simp at hs
  · intro i hi hsome msg rank
    obtain ⟨e, he⟩ := Option.isSome_iff_exists.mp hsome
    refine ⟨e, ?_⟩
    simp only [List.get_eq_getElem] at he
    simp [MasterCommandChannel.sendMessage, he]

theorem claim_C3_witness :
    (∀ i j (hi : i < (MasterCommandChannel.errorHandlerTrace sampleMaster
          [(false, 1, "oops"), (false, 2, "late")]).length)
        (hj : j < (MasterCommandChannel.errorHandlerTrace sampleMaster
          [(false, 1, "oops"), (false, 2, "late")]).length),
      i ≤ j →
      ((MasterCommandChannel.errorHandlerTrace sampleMaster
          [(false, 1, "oops"), (false, 2, "late")]).get ⟨i, hi⟩).error.isSome →
      ((MasterCommandChannel.errorHandlerTrace sampleMaster
          [(false, 1, "oops"), (false, 2, "late")]).get ⟨j, hj⟩).error.isSome) :=
  (claim_C3 sampleMaster [(false, 1, "oops"), (false, 2, "late")]).1

theorem predSplitOrder (p q : MEvent → Bool) (l A B : List MEvent)
    (hl : l = A ++ B)
    (hA : ∀ x ∈ A, p x = false) (hB : ∀ x ∈ B, q x = false)
    (i j : Nat) (hi : i < l.length) (hj : j < l.length)
    (hpi : p (l.get ⟨i, hi⟩) = true) (hqj : q (l.get ⟨j, hj⟩) = true) :
    j < i := by
  subst hl
  have hiA : ¬i < A.length := by
    intro hlt
    have hget : (A ++ B).get ⟨i, hi⟩ = A.get ⟨i, hlt⟩ := by
      simp [List.get_eq_getElem, List.getElem_append_left hlt]
    rw [hget, hA _ (List.get_mem A i hlt)] at hpi
    cases hpi
  have hjA : j < A.length := by
    by_contra hge
    push_neg at hge
    have hjB : j - A.length < B.length := by
      have := hj
      simp only [List.length_append] at this
      omega
    have hget : (A ++ B).get ⟨j, hj⟩ = B.get ⟨j - A.length, hjB⟩ := by
      simp [List.get_eq_getElem, List.getElem_append_right hge]
    rw [hget, hB _ (List.get_mem B _ hjB)] at hqj
    cases hqj
  omega

/-- Claim C2: for every arrival order of the `WorldSize - 1` worker
connections (valid, pairwise-distinct announced ranks), the master's
`init` stores each accepted connection at the slot of the rank that
connection announced — not at its arrival position — and every
confirmation-byte write occurs, in the event trace, strictly after every
accept; a worker's `init` cannot return while its confirmation stream is
still empty, so no worker unblocks before all have joined. -/
theorem claim_C2 (listenFd : Int) (worldSize : Nat) (arrivals : List Arrival)
    (hlen : arrivals.length = worldSize - 1)
    (hvalid : ∀ a ∈ arrivals, 1 ≤ a.rank ∧ a.rank < worldSize)
    (hnd : (arrivals.map Arrival.rank).Nodup) :
    ∃ tbl events,
      MasterCommandChannel.init listenFd worldSize arrivals = some (tbl, events) ∧
      (∀ a ∈ arrivals, tbl.getD a.rank (-1) = a.socket) ∧
      (∀ i j (hi : i < events.length) (hj : j < events.length),
        (events.get ⟨i, hi⟩).isConfirm = true →
        (events.get ⟨j, hj⟩).isAccept = true → j < i) ∧
      (∀ r, (WorkerCommandChannel.init r []).2 = none) := by
  have hranks : ∀ a ∈ arrivals,
      a.rank < ((List.replicate worldSize (-1 : Int)).set 0 listenFd).length := by
    intro a ha
    simpa using (hvalid a ha).2
  obtain ⟨tbl', htbl'⟩ :=
    slotArrivals_isSome arrivals ((List.replicate worldSize (-1 : Int)).set 0 listenFd) hranks
  refine ⟨tbl'.set 0 (-1),
    arrivals.map (fun a => MEvent.accept a.socket a.rank) ++
      (List.range' 1 (worldSize - 1)).map (fun i => MEvent.confirmByte i (tbl'.getD i (-1))) ++
      [MEvent.closeListen (tbl'.getD 0 (-1))], ?_, ?_, ?_, ?_⟩
  · simp [MasterCommandChannel.init, hlen, htbl']
  · intro a ha
    rw [getD_set_ne tbl' 0 a.rank (-1) (-1) (by have := (hvalid a ha).1; omega)]
    exact slotArrivals_getD_mem arrivals _ tbl' a (-1) htbl' hnd ha
  · intro i j hi hj hpi hqj
    refine predSplitOrder MEvent.isConfirm MEvent.isAccept _
      (arrivals.map (fun a => MEvent.accept a.socket a.rank))
      ((List.range' 1 (worldSize - 1)).map (fun i => MEvent.confirmByte i (tbl'.getD i (-1))) ++
        [MEvent.closeListen (tbl'.getD 0 (-1))])
      (by rw [List.append_assoc]) ?_ ?_ i j hi hj hpi hqj
    · intro x hx
      obtain ⟨a, _, hax⟩ := List.mem_map.mp hx
      rw [← hax]
      rfl
    · intro x hx
      rcases List.mem_append.mp hx with hx1 | hx2
      · obtain ⟨k, _, hkx⟩ := List.mem_map.mp hx1
        rw [← hkx]
        rfl
      · rw [List.mem_singleton.mp hx2]
        rfl
  · intro r
    rfl

theorem claim_C2_witness :
    ∃ tbl events,
      MasterCommandChannel.init 10 4 [⟨11, 3⟩, ⟨12, 2⟩, ⟨13, 1⟩] = some (tbl, events) ∧
      (∀ a ∈ ([⟨11, 3⟩, ⟨12, 2⟩, ⟨13, 1⟩] : List Arrival), tbl.getD a.rank (-1) = a.socket) ∧
      (∀ i j (hi : i < events.length) (hj : j < events.length),
        (events.get ⟨i, hi⟩).isConfirm = true →
        (events.get ⟨j, hj⟩).isAccept = true → j < i) ∧
      (∀ r, (WorkerCommandChannel.init r []).2 = none) :=
  claim_C2 10 4 [⟨11, 3⟩, ⟨12, 2⟩, ⟨13, 1⟩] rfl (by decide) (by decide)

/-- Claim C10: during the master's init handshake the announced rank is
used directly as the slot index with no validation against
`[1, WorldSize)`: an announced rank at or above `WorldSize` hits the
bounds-checked `_sockets.at(rank)` and aborts setup; an announced rank of
0 is accepted and overwrites the slot holding the listening socket; and a
rank announced by two different connections silently overwrites the first
stored connection. -/
theorem claim_C10 :
    (∀ (listenFd : Int) (worldSize : Nat) (arrivals : List Arrival),
      arrivals.length = worldSize - 1 →
      (∃ a ∈ arrivals, worldSize ≤ a.rank) →
      MasterCommandChannel.init listenFd worldSize arrivals = none) ∧
    (∀ (listenFd s : Int) (rest : List Int),
      slotArrivals (listenFd :: rest) [⟨s, 0⟩] = some (s :: rest)) ∧
    (∀ (tbl : List Int) (s₁ s₂ : Int) (rk : Nat), rk < tbl.length →
      ∃ tbl', slotArrivals tbl [⟨s₁, rk⟩, ⟨s₂, rk⟩] = some tbl' ∧
        tbl'.getD rk (-1) = s₂) := by
  refine ⟨?_, ?_, ?_⟩
  · intro listenFd worldSize arrivals hlen hoob
    obtain ⟨a, ha, hrk⟩ := hoob
    have hnone : slotArrivals ((List.replicate worldSize (-1 : Int)).set 0 listenFd)
        arrivals = none :=
      slotArrivals_oob arrivals _ ⟨a, ha, by simpa using hrk⟩
    simp [MasterCommandChannel.init, hlen, hnone]
  · intro listenFd s rest
    simp [slotArrivals]
  · intro tbl s₁ s₂ rk hrk
    refine ⟨(tbl.set rk s₁).set rk s₂, ?_, ?_⟩
    · simp [slotArrivals, hrk]
    · exact getD_set_self _ rk s₂ (-1) (by simpa using hrk)

theorem claim_C10_witness :
    MasterCommandChannel.init 10 2 [⟨5, 7⟩] = none ∧
    slotArrivals [9, -1, -1] [⟨5, 0⟩] = some [5, -1, -1] ∧
    (∃ tbl', slotArrivals [9, -1, -1] [⟨5, 1⟩, ⟨6, 1⟩] = some tbl' ∧
      tbl'.getD 1 (-1) = 6) :=
  ⟨claim_C10.1 10 2 [⟨5, 7⟩] rfl ⟨⟨5, 7⟩, by decide, by norm_num⟩,
   claim_C10.2.1 9 5 [-1, -1],
   claim_C10.2.2 [9, -1, -1] 5 6 1 (by norm_num)⟩

/-- Claim C7: master teardown first sets the exit signal and joins the
background thread when one was started, and only then closes every
still-open connection, each exactly once (slots holding `-1` are never
closed); worker teardown is safe when `init()` was never called (the
constructor leaves `_socket = -1`, so no close is performed) and
otherwise closes its single connection exactly once. -/
theorem claim_C7 (st : MasterState)
    (hnd : (st.sockets.filter (fun s => s ≠ -1)).Nodup) :
    (∀ fd, fd ∈ st.sockets → fd ≠ -1 →
      (MasterCommandChannel.destructor st).count (TEvent.closeFd fd) = 1) ∧
    (∃ closes, MasterCommandChannel.destructor st =
        TEvent.setExitFlag ::
          ((if st.started then [TEvent.joinThread] else []) ++ closes) ∧
      ∀ e ∈ closes, ∃ fd, e = TEvent.closeFd fd ∧ fd ≠ -1) ∧
    WorkerCommandChannel.destructor WorkerCommandChannel.initialSocket = [] ∧
    (∀ s, s ≠ -1 → (WorkerCommandChannel.destructor s).count (TEvent.closeFd s) = 1) := by
  have hinj : Function.Injective TEvent.closeFd := by
    intro a b h
    injection h
  refine ⟨?_, ?_, ?_, ?_⟩
  · intro fd hmem hne
    have hmemf : fd ∈ st.sockets.filter (fun s => s ≠ -1) := by
      simp [List.mem_filter, hmem, hne]
    have h1 : (st.sockets.filter (fun s => s ≠ -1)).count fd = 1 :=
      List.count_eq_one_of_mem hnd hmemf
    have hmap : ((st.sockets.filter (fun s => s ≠ -1)).map TEvent.closeFd).count
        (TEvent.closeFd fd) = 1 := by
      rw [List.count_map_of_injective _ _ hinj, h1]
    simp only [ne_eq, decide_not] at hmap
    cases hstart : st.started <;>
      simp [MasterCommandChannel.destructor, hstart, List.count_cons,
        List.count_append, hmap]
  · refine ⟨_, rfl, ?_⟩
    intro e he
    obtain ⟨fd, hfd, hfde⟩ := List.mem_map.mp he
    exact ⟨fd, hfde.symm, by simpa using (List.mem_filter.mp hfd).2⟩
  · simp [WorkerCommandChannel.destructor, WorkerCommandChannel.initialSocket]
  · intro s hs
    simp [WorkerCommandChannel.destructor, hs]

theorem claim_C7_witness :
    (sampleMaster.sockets.filter (fun s => s ≠ -1)).Nodup ∧
      ((∀ fd, fd ∈ sampleMaster.sockets → fd ≠ -1 →
        (MasterCommandChannel.destructor sampleMaster).count (TEvent.closeFd fd) = 1) ∧
      (∃ closes, MasterCommandChannel.destructor sampleMaster =
          TEvent.setExitFlag ::
            ((if sampleMaster.started then [TEvent.joinThread] else []) ++ closes) ∧
        ∀ e ∈ closes, ∃ fd, e = TEvent.closeFd fd ∧ fd ≠ -1) ∧
      WorkerCommandChannel.destructor WorkerCommandChannel.initialSocket = [] ∧
      (∀ s, s ≠ -1 →
        (WorkerCommandChannel.destructor s).count (TEvent.closeFd s) = 1)) :=
  ⟨by decide, claim_C7 sampleMaster (by decide)⟩

theorem recvError_eq_scan (st : MasterState) (results : List Nat)
    (streams : List (List Nat)) (ewhat : String) (hex : st.exiting = false) :
    MasterCommandChannel.recvError st none results streams ewhat =
      (match scanPoll ewhat (applyResults (clearRevents
          (st.pollEvents.getD (buildPollEvents st.sockets))) results) streams 0 with
      | some (res, pes₃) => (res, { st with pollEvents := some pes₃ })
      | none => ((0, "failed to receive error from worker"),
          { st with pollEvents := some (applyResults (clearRevents
            (st.pollEvents.getD (buildPollEvents st.sockets))) results) })) := by
  simp [MasterCommandChannel.recvError, hex]

/-- Claim C8: the background listener's wait is bounded: once the exit
signal is set, `recvError` returns at its next poll wake with the empty
report `(0, "")` and the `errorHandler` loop terminates instead of
continuing; and whenever poll wakes with no exit requested but no
descriptor actually has events, `recvError` returns the synthetic report
"failed to receive error from worker" rather than looping without a
signal. -/
theorem claim_C8 (st : MasterState) (results : List Nat)
    (streams : List (List Nat)) (ewhat : String) (r : Nat) (t : String)
    (rest : List (Bool × Nat × String)) :
    (st.exiting = true →
      (MasterCommandChannel.recvError st none results streams ewhat).1 = (0, "") ∧
      MasterCommandChannel.errorHandlerRun st ((true, r, t) :: rest) = []) ∧
    (st.exiting = false →
      (∀ j, j < results.length → results.getD j 0 = 0) →
      (MasterCommandChannel.recvError st none results streams ewhat).1 =
        (0, "failed to receive error from worker")) := by
  constructor
  · intro hex
    constructor
    · simp [MasterCommandChannel.recvError, hex]
    · simp [MasterCommandChannel.errorHandlerRun]
  · intro hex hzero
    have hall : ∀ j, results.getD j 0 = 0 := by
      intro j
      by_cases hj : j < results.length
      · exact hzero j hj
      · exact List.getD_eq_default results 0 (by omega)
    have hnone' : scanPoll ewhat
        (applyResults (clearRevents (st.pollEvents.getD (buildPollEvents st.sockets)))
          results) streams 0 = none := by
      apply scanPoll_none
      intro j hj
      rw [applyResults_getD _ _ j
        (by simpa [applyResults_length] using hj)]
      simpa using hall j
    simp [MasterCommandChannel.recvError, hex, hnone']

theorem claim_C8_witness :
    (sampleMasterExiting.exiting = true →
      (MasterCommandChannel.recvError sampleMasterExiting none [1] [[]] "e").1 = (0, "") ∧
      MasterCommandChannel.errorHandlerRun sampleMasterExiting
        ((true, 1, "late") :: []) = []) ∧
    sampleMasterExiting.exiting = true ∧
    sampleMaster.exiting = false ∧
    (∀ j, j < ([0, 0, 0] : List Nat).length → ([0, 0, 0] : List Nat).getD j 0 = 0) ∧
    (MasterCommandChannel.recvError sampleMaster none [0, 0, 0] [[]] "e").1 =
      (0, "failed to receive error from worker") :=
  ⟨(claim_C8 sampleMasterExiting [1] [[]] "e" 1 "late" []).1,
   rfl, rfl, by decide,
   (claim_C8 sampleMaster [0, 0, 0] [[]] "e" 1 "late" []).2 rfl (by decide)⟩

/-- Claim C5: when poll reports a hang-up/error condition (any `revents`
other than plain `POLLIN`) on worker rank `r`'s connection — the first
descriptor with events this wake — `recvError` returns the synthesized
report `(r, "connection with worker has been closed")` and only that one
report even when descriptors beyond `r` are simultaneously ready, marks
rank `r`'s poll descriptor with `fd = -1`, leaves the socket table
untouched (the socket stays open), and in every future polling cycle
(poll never reporting events on a negative descriptor) rank `r` is never
serviced again and its mark persists. -/
theorem claim_C5 (st : MasterState) (results : List Nat)
    (streams : List (List Nat)) (ewhat : String) (r : Nat)
    (hex : st.exiting = false)
    (hr1 : 1 ≤ r)
    (hr : r < (st.pollEvents.getD (buildPollEvents st.sockets)).length)
    (hbefore : ∀ j, j < r → results.getD j 0 = 0)
    (hready : results.getD r 0 ≠ 0)
    (hxor : results.getD r 0 ^^^ POLLIN ≠ 0) :
    (MasterCommandChannel.recvError st none results streams ewhat).1 =
      (r, "connection with worker has been closed") ∧
    (MasterCommandChannel.recvError st none results streams ewhat).2.sockets =
      st.sockets ∧
    (∃ pes₂, (MasterCommandChannel.recvError st none results streams ewhat).2.pollEvents =
        some pes₂ ∧ r < pes₂.length ∧ (pes₂.getD r default).fd = -1) ∧
    (∀ st₂ pes₂ pollExc₂ results₂ streams₂ ewhat₂,
      st₂.pollEvents = some pes₂ →
      r < pes₂.length →
      (pes₂.getD r default).fd = -1 →
      (∀ j, j < pes₂.length → (pes₂.getD j default).fd < 0 → results₂.getD j 0 = 0) →
      (MasterCommandChannel.recvError st₂ pollExc₂ results₂ streams₂ ewhat₂).1.1 ≠ r ∧
      (∃ pes₃, (MasterCommandChannel.recvError st₂ pollExc₂ results₂ streams₂
          ewhat₂).2.pollEvents = some pes₃ ∧
        r < pes₃.length ∧ (pes₃.getD r default).fd = -1)) := by
  have hlen' : (applyResults (clearRevents
      (st.pollEvents.getD (buildPollEvents st.sockets))) results).length =
      (st.pollEvents.getD (buildPollEvents st.sockets)).length := by
    rw [applyResults_length, clearRevents_length]
  have hrev : ∀ j, j < (st.pollEvents.getD (buildPollEvents st.sockets)).length →
      ((applyResults (clearRevents
        (st.pollEvents.getD (buildPollEvents st.sockets))) results).getD j
          default).revents = results.getD j 0 := by
    intro j hj
    rw [applyResults_getD _ _ j (by rw [clearRevents_length]; exact hj)]
  have hscan : scanPoll ewhat (applyResults (clearRevents
      (st.pollEvents.getD (buildPollEvents st.sockets))) results) streams 0 =
      some ((0 + r, "connection with worker has been closed"),
        (applyResults (clearRevents
          (st.pollEvents.getD (buildPollEvents st.sockets))) results).set r
          { (applyResults (clearRevents
            (st.pollEvents.getD (buildPollEvents st.sockets))) results).getD r
              default with fd := -1 }) := by
    apply scanPoll_hangup
    · intro j hj
      rw [hrev j (by omega)]
      exact hbefore j hj
    · rw [hlen']
      exact hr
    · rw [hrev r hr]
      exact hready
    · rw [hrev r hr]
      exact hxor
  rw [recvError_eq_scan st results streams ewhat hex, hscan]
  refine ⟨by simp, rfl, ?_, ?_⟩
  · refine ⟨_, rfl, ?_, ?_⟩
    · rw [List.length_set, hlen']
      exact hr
    · rw [getD_set_self _ r _ default (by rw [hlen']; exact hr)]
  · intro st₂ pes₂ pollExc₂ results₂ streams₂ ewhat₂ hpe hr₂ hfd hposix
    have hlen₂ : (applyResults (clearRevents pes₂) results₂).length = pes₂.length := by
      rw [applyResults_length, clearRevents_length]
    have hfd₂ : ((applyResults (clearRevents pes₂) results₂).getD r default).fd = -1 := by
      rw [applyResults_getD _ _ r (by rw [clearRevents_length]; exact hr₂)]
      show ((clearRevents pes₂).getD r default).fd = -1
      rw [clearRevents_getD pes₂ r hr₂]
      exact hfd
    have hrev₂ : ((applyResults (clearRevents pes₂) results₂).getD r default).revents =
        results₂.getD r 0 := by
      rw [applyResults_getD _ _ r (by rw [clearRevents_length]; exact hr₂)]
    have hres₂ : results₂.getD r 0 = 0 := hposix r hr₂ (by omega)
    cases pollExc₂ with
    | some e =>
      refine ⟨?_, clearRevents pes₂, ?_, ?_, ?_⟩
      · simp [MasterCommandChannel.recvError, hpe]
        omega
      · simp [MasterCommandChannel.recvError, hpe]
      · rw [clearRevents_length]
        exact hr₂
      · rw [clearRevents_getD pes₂ r hr₂]
        exact hfd
    | none =>
      cases hex₂ : st₂.exiting with
      | true =>
        refine ⟨?_, applyResults (clearRevents pes₂) results₂, ?_, ?_, ?_⟩
        · simp [MasterCommandChannel.recvError, hpe, hex₂]
          omega
        · simp [MasterCommandChannel.recvError, hpe, hex₂]
        · rw [hlen₂]
          exact hr₂
        · exact hfd₂
      | false =>
        rw [recvError_eq_scan st₂ results₂ streams₂ ewhat₂ hex₂]
        rw [show st₂.pollEvents.getD (buildPollEvents st₂.sockets) = pes₂ by
          rw [hpe]; rfl]
        cases hscan₂ : scanPoll ewhat₂ (applyResults (clearRevents pes₂) results₂)
            streams₂ 0 with
        | none =>
          refine ⟨by simp; omega, applyResults (clearRevents pes₂) results₂,
            by simp, by rw [hlen₂]; exact hr₂, hfd₂⟩
        | some x =>
          obtain ⟨⟨k, m⟩, pesN⟩ := x
          have hkr : k ≠ r := by
            intro hk
            obtain ⟨j, hj, hkj, hjrev⟩ := scanPoll_rank_ready ewhat₂ _ streams₂ 0 k m
              pesN hscan₂
            have hjr : j = r := by omega
            subst hjr
            rw [hrev₂, hres₂] at hjrev
            exact hjrev rfl
          refine ⟨by simpa using hkr, pesN, by simp, ?_, ?_⟩
          · rw [scanPoll_length ewhat₂ _ streams₂ 0 (k, m) pesN hscan₂, hlen₂]
            exact hr₂
          · rcases scanPoll_fd_preserve ewhat₂ _ streams₂ 0 (k, m) pesN hscan₂ r with
              hp | hp
            · rw [hp]
              exact hfd₂
            · exact hp

theorem claim_C5_witness :
    sampleMaster.exiting = false ∧ 1 ≤ 1 ∧
    1 < (sampleMaster.pollEvents.getD (buildPollEvents sampleMaster.sockets)).length ∧
    ((MasterCommandChannel.recvError sampleMaster none [0, 16] [[], []] "e").1 =
      (1, "connection with worker has been closed") ∧
    (MasterCommandChannel.recvError sampleMaster none [0, 16] [[], []] "e").2.sockets =
      sampleMaster.sockets ∧
    (∃ pes₂, (MasterCommandChannel.recvError sampleMaster none [0, 16]
        [[], []] "e").2.pollEvents =
        some pes₂ ∧ 1 < pes₂.length ∧ (pes₂.getD 1 default).fd = -1) ∧
    (∀ st₂ pes₂ pollExc₂ results₂ streams₂ ewhat₂,
      st₂.pollEvents = some pes₂ →
      1 < pes₂.length →
      (pes₂.getD 1 default).fd = -1 →
      (∀ j, j < pes₂.length → (pes₂.getD j default).fd < 0 → results₂.getD j 0 = 0) →
      (MasterCommandChannel.recvError st₂ pollExc₂ results₂ streams₂ ewhat₂).1.1 ≠ 1 ∧
      (∃ pes₃, (MasterCommandChannel.recvError st₂ pollExc₂ results₂ streams₂
          ewhat₂).2.pollEvents = some pes₃ ∧
        1 < pes₃.length ∧ (pes₃.getD 1 default).fd = -1))) :=
  ⟨rfl, le_refl 1, by decide,
    claim_C5 sampleMaster [0, 16] [[], []] "e" 1 rfl (le_refl 1) (by decide)
      (by decide) (by decide) (by decide)⟩

end THD
